import Mathlib

/-!
Shallow embedding of `src/hand_simulator/backend/main.py` (FastAPI backend of
the hand simulator) and proofs about it.

Modelling conventions:
* Python floats are modelled as rationals (`ℚ`); the claims proved here do not
  depend on IEEE rounding.
* Python dicts appearing as request payloads / joint maps are modelled as
  association lists (`List (String × _)`) with `List.lookup`; iteration order
  is insertion order, as in CPython.
* Fallible code is modelled with `Except` / `Option`.
* Side effects on the pybullet collaborator are modelled as explicit event
  traces (lists of emitted calls), so that "exactly one step per tick" and
  similar counting claims are statable.
-/

set_option autoImplicit false

/-- Embeds `MotionKeyframe` (pydantic model): a time offset and a joint-target
dict. -/
structure MotionKeyframe where
  time : ℚ
  joints : List (String × ℚ)
deriving DecidableEq, Repr

/-- Embeds `MotionDefinition` (pydantic model): name, tick frequency and a
keyframe list.  The pydantic model declares only field types; it has no
validators. -/
structure MotionDefinition where
  name : String
  frequency : ℚ
  keyframes : List MotionKeyframe
deriving DecidableEq, Repr

/-- Embeds `JointCommand` (pydantic model): targets dict plus one shared
max-force scalar. -/
structure JointCommand where
  targets : List (String × ℚ)
  max_force : ℚ
deriving DecidableEq, Repr

/-- Embeds `MotionRequest` (pydantic model): motion name and a scale factor. -/
structure MotionRequest where
  name : String
  scale : ℚ
deriving DecidableEq, Repr

/-- One `pb.setJointMotorControl2` invocation as issued by
`Simulation.apply_targets`: joint index, target position, and force.  The
control mode is always `POSITION_CONTROL` and the body is always the hand, so
neither is recorded. -/
structure MotorCmd where
  jointIndex : Nat
  targetPosition : ℚ
  force : ℚ
deriving DecidableEq, Repr

/-- Embeds `Simulation.apply_targets` (main.py lines 136-147): for each
`(name, value)` entry of the targets dict, look the name up in
`self.joint_map`; if it is absent, `continue`; otherwise issue one motor
command with the given max force.  The function is total: unknown names are
skipped, never an error. -/
def applyTargets (jointMap : List (String × Nat)) (targets : List (String × ℚ))
    (maxForce : ℚ) : List MotorCmd :=
  targets.filterMap fun p =>
    (jointMap.lookup p.1).map fun idx =>
      { jointIndex := idx, targetPosition := p.2, force := maxForce }

/-- Errors `render_urdf` can raise: `RuntimeError` for an unsupported source
string, a missing sample file, a missing xacro file or no source at all, and
the propagated xacro build exception. -/
inductive UrdfErr where
  | unsupported (source : String)
  | sampleMissing
  | xacroMissing
  | buildFailure (msg : String)
  | noSource
deriving DecidableEq, Repr

/-- The filesystem / xacro environment `render_urdf` consults: whether
`DEFAULT_XACRO` and `SAMPLE_URDF` exist, the outcome of
`xacro.process_file(DEFAULT_XACRO).toxml()` (either the XML text or the raised
exception message), and the text of the sample file. -/
structure UrdfWorld where
  xacroExists : Bool
  sampleExists : Bool
  buildResult : Except String String
  sampleText : String

/-- Embeds `render_urdf` (main.py lines 69-93) over an explicit `UrdfWorld`.
Branch for branch: unsupported source strings raise; `sample` reads the sample
file or raises; `xacro` builds or raises; `auto` tries the xacro build first,
falls back to the sample file if the build raises and the sample exists,
re-raises the build error otherwise, and uses the sample (or raises
`RuntimeError No URDF source available`) when the xacro file is absent. -/
def renderUrdf (w : UrdfWorld) (source : String) : Except UrdfErr String :=
  if source ≠ "auto" ∧ source ≠ "sample" ∧ source ≠ "xacro" then
    .error (.unsupported source)
  else if source = "sample" then
    if w.sampleExists then .ok w.sampleText else .error .sampleMissing
  else if source = "xacro" then
    if w.xacroExists then
      match w.buildResult with
      | .ok xml => .ok xml
      | .error e => .error (.buildFailure e)
    else .error .xacroMissing
  else
    -- auto mode
    if w.xacroExists then
      match w.buildResult with
      | .ok xml => .ok xml
      | .error e =>
        if w.sampleExists then .ok w.sampleText else .error (.buildFailure e)
    else if w.sampleExists then .ok w.sampleText
    else .error .noSource

/-- A WebSocket subscriber as seen by the publisher loop: an identity (Python
object identity of the `WebSocket`; distinct connections are distinct objects)
and whether `await ws.send_json(...)` succeeds for it this tick. -/
structure Subscriber where
  id : Nat
  ok : Bool
deriving DecidableEq, Repr

/-- The `state_publish_task` object reduced to what `ensure_state_publisher`
inspects: whether `task.done()` is true. -/
structure PubTask where
  done : Bool
deriving DecidableEq, Repr

/-- Process-wide publisher state: the module globals `state_publish_task` and
`state_subscribers`, plus a ghost counter of how many `asyncio.create_task`
calls `ensure_state_publisher` has performed. -/
structure PublisherState where
  task : Option PubTask
  created : Nat
  subscribers : List Subscriber
deriving DecidableEq, Repr

/-- Embeds the Python truthiness test
`state_publish_task and not state_publish_task.done()`: a task object is
truthy, `None` is falsy. -/
def taskRunning : Option PubTask → Bool
  | some t => !t.done
  | none => false

/-- Embeds `ensure_state_publisher` (main.py lines 158-178): if a task exists
and is not done, return (no-op); otherwise create a fresh publisher task.  The
function body has no await before `create_task`, so one call is one atomic
transition on the globals. -/
def ensureStatePublisher (s : PublisherState) : PublisherState :=
  if taskRunning s.task then s
  else { s with task := some { done := false }, created := s.created + 1 }

/-- Calls emitted by one iteration of the `publisher` loop body
(main.py lines 163-176): the `get_joint_state` read, a successful or failed
`send_json` to a subscriber, a `state_subscribers.remove`, the
`simulation.step()` call, and the tick sleep. -/
inductive PubEvent where
  | readState
  | sendOk (dest : Nat) (snapshot : List (String × ℚ))
  | sendFail (dest : Nat)
  | removeSub (dest : Nat)
  | stepCall
  | sleepCall (d : ℚ)
deriving DecidableEq, Repr

/-- Embeds the `for ws in list(state_subscribers)` loop of the publisher: the
first argument list is the copy being iterated, the second the live registry.
A successful `send_json` delivers the snapshot; a raising one removes that
subscriber (first occurrence, as `list.remove` does) from the live registry
and the loop continues with the next subscriber. -/
def deliverAll (snapshot : List (String × ℚ)) :
    List Subscriber → List Subscriber → List PubEvent × List Subscriber
  | [], registry => ([], registry)
  | ws :: rest, registry =>
    if ws.ok then
      let r := deliverAll snapshot rest registry
      (.sendOk ws.id snapshot :: r.1, r.2)
    else
      let r := deliverAll snapshot rest (registry.erase ws)
      (.sendFail ws.id :: .removeSub ws.id :: r.1, r.2)

/-- Embeds one full tick of the publisher loop: read the joint state once,
build one message from it, attempt delivery to every subscriber in a copy of
the registry, then step the simulation and sleep 1/20 s. -/
def publisherTick (snapshot : List (String × ℚ)) (registry : List Subscriber) :
    List PubEvent × List Subscriber :=
  let d := deliverAll snapshot registry registry
  (PubEvent.readState :: d.1 ++ [PubEvent.stepCall, PubEvent.sleepCall (1 / 20)], d.2)

/-- The delivery loop never reads the joint state again: the snapshot is taken
before the loop, once per tick. -/
theorem deliverAll_no_read (snapshot : List (String × ℚ))
    (copy registry : List Subscriber) :
    PubEvent.readState ∉ (deliverAll snapshot copy registry).1 := by
  induction copy generalizing registry with
  | nil => simp [deliverAll]
  | cons ws rest ih =>
    by_cases h : ws.ok <;> simp [deliverAll, h, ih]

/-- Every send event of the delivery loop carries the tick's snapshot. -/
theorem deliverAll_same_snapshot (snapshot : List (String × ℚ))
    (copy registry : List Subscriber) (i : Nat) (s : List (String × ℚ)) :
    PubEvent.sendOk i s ∈ (deliverAll snapshot copy registry).1 → s = snapshot := by
  induction copy generalizing registry with
  | nil => simp [deliverAll]
  | cons ws rest ih =>
    by_cases h : ws.ok <;> simp only [deliverAll, h, if_true, if_false,
      Bool.false_eq_true, List.mem_cons] <;> intro hmem
    · rcases hmem with heq | hmem
      · exact (PubEvent.sendOk.injEq .. ▸ heq).2
      · exact ih registry hmem
    · rcases hmem with heq | heq | hmem
      · exact absurd heq (by simp)
      · exact absurd heq (by simp)
      · exact ih (registry.erase ws) hmem

/-- Subscribers whose send succeeds are delivered to, and stay registered as
long as they were registered (only elements equal to a failing subscriber are
ever erased, and failing and succeeding subscribers differ). -/
theorem deliverAll_ok_delivered (snapshot : List (String × ℚ))
    (copy : List Subscriber) (ws : Subscriber) (hws : ws ∈ copy)
    (hok : ws.ok = true) (registry : List Subscriber) :
    PubEvent.sendOk ws.id snapshot ∈ (deliverAll snapshot copy registry).1 := by
  induction copy generalizing registry with
  | nil => cases hws
  | cons hd rest ih =>
    rcases List.mem_cons.mp hws with rfl | hmem
    · simp [deliverAll, hok]
    · by_cases h : hd.ok <;> simp [deliverAll, h, ih hmem]

/-- The registry produced by the delivery loop is a sub-collection of the
input registry: the loop only removes. -/
theorem deliverAll_registry_subset (snapshot : List (String × ℚ))
    (copy registry : List Subscriber) :
    (deliverAll snapshot copy registry).2 ⊆ registry := by
  induction copy generalizing registry with
  | nil => exact fun x hx => hx
  | cons hd rest ih =>
    by_cases h : hd.ok
    · simpa [deliverAll, h] using ih registry
    · simp only [deliverAll, h, Bool.false_eq_true, if_false]
      exact fun x hx => List.erase_subset _ _ (ih (registry.erase hd) hx)

/-- A subscriber whose sends succeed survives the delivery loop in the
registry. -/
theorem deliverAll_ok_survives (snapshot : List (String × ℚ))
    (copy : List Subscriber) (ws : Subscriber) (hok : ws.ok = true)
    (registry : List Subscriber) (hreg : ws ∈ registry) :
    ws ∈ (deliverAll snapshot copy registry).2 := by
  induction copy generalizing registry with
  | nil => exact hreg
  | cons hd rest ih =>
    by_cases h : hd.ok
    · simpa [deliverAll, h] using ih registry hreg
    · simp only [deliverAll, h, Bool.false_eq_true, if_false]
      refine ih (registry.erase hd) ?_
      refine (List.mem_erase_of_ne ?_).mpr hreg
      intro heq
      exact h (heq ▸ hok)

/-- A subscriber whose send fails is removed: a remove event is emitted for
it. -/
theorem deliverAll_fail_remove_event (snapshot : List (String × ℚ))
    (copy : List Subscriber) (ws : Subscriber) (hws : ws ∈ copy)
    (hfail : ws.ok = false) (registry : List Subscriber) :
    PubEvent.removeSub ws.id ∈ (deliverAll snapshot copy registry).1 := by
  induction copy generalizing registry with
  | nil => cases hws
  | cons hd rest ih =>
    rcases List.mem_cons.mp hws with rfl | hmem
    · simp [deliverAll, hfail]
    · by_cases h : hd.ok <;> simp [deliverAll, h, ih hmem]

/-- A subscriber whose send fails is gone from the registry when the tick's
delivery loop finishes (the registry holds no duplicates: each websocket
connection is appended once). -/
theorem deliverAll_fail_removed (snapshot : List (String × ℚ))
    (copy : List Subscriber) (ws : Subscriber) (hws : ws ∈ copy)
    (hfail : ws.ok = false) (registry : List Subscriber)
    (hnodup : registry.Nodup) :
    ws ∉ (deliverAll snapshot copy registry).2 := by
  induction copy generalizing registry with
  | nil => cases hws
  | cons hd rest ih =>
    rcases List.mem_cons.mp hws with rfl | hmem
    · simp only [deliverAll, hfail, Bool.false_eq_true, if_false]
      intro hcontra
      have hsub := deliverAll_registry_subset snapshot rest (registry.erase ws)
      have : ws ∈ registry.erase ws := hsub hcontra
      exact ((hnodup.mem_erase_iff).mp this).1 rfl
    · by_cases h : hd.ok
      · simpa [deliverAll, h] using ih hmem registry hnodup
      · simp only [deliverAll, h, Bool.false_eq_true, if_false]
        exact ih hmem (registry.erase hd) (hnodup.erase hd)

/-- C3: in every broadcast tick the joint state is read exactly once; every
send event carries that one snapshot; every subscriber registered at the start
of the tick whose delivery succeeds receives the snapshot and stays
registered; every subscriber whose delivery fails is removed (event and
registry) within the same tick; and the tick is not aborted: the simulation
step still runs after any failure. -/
theorem publisherTick_spec (snapshot : List (String × ℚ))
    (subs : List Subscriber) (hnodup : subs.Nodup) :
    ((publisherTick snapshot subs).1.count PubEvent.readState = 1) ∧
    (∀ i s, PubEvent.sendOk i s ∈ (publisherTick snapshot subs).1 →
      s = snapshot) ∧
    (∀ ws ∈ subs, ws.ok = true →
      PubEvent.sendOk ws.id snapshot ∈ (publisherTick snapshot subs).1 ∧
      ws ∈ (publisherTick snapshot subs).2) ∧
    (∀ ws ∈ subs, ws.ok = false →
      PubEvent.removeSub ws.id ∈ (publisherTick snapshot subs).1 ∧
      ws ∉ (publisherTick snapshot subs).2) ∧
    PubEvent.stepCall ∈ (publisherTick snapshot subs).1 := by
  refine ⟨?_, ?_, ?_, ?_, ?_⟩
  · have hno := deliverAll_no_read snapshot subs subs
    simp [publisherTick, List.count_cons, List.count_append,
      List.count_eq_zero.mpr hno]
  · intro i s hmem
    have hmem2 : PubEvent.sendOk i s ∈ PubEvent.readState ::
        ((deliverAll snapshot subs subs).1 ++
          [PubEvent.stepCall, PubEvent.sleepCall (1 / 20)]) := hmem
    rcases List.mem_cons.mp hmem2 with h | h
    · exact absurd h (by simp)
    rcases List.mem_append.mp h with h2 | h2
    · exact deliverAll_same_snapshot snapshot subs subs i s h2
    · rcases List.mem_cons.mp h2 with h3 | h3
      · exact absurd h3 (by simp)
      · exact absurd (List.mem_singleton.mp h3) (by simp)
  · intro ws hws hok
    refine ⟨?_, deliverAll_ok_survives snapshot subs ws hok subs hws⟩
    exact List.mem_cons_of_mem _ (List.mem_append_left _
      (deliverAll_ok_delivered snapshot subs ws hws hok subs))
  · intro ws hws hfail
    refine ⟨?_, deliverAll_fail_removed snapshot subs ws hws hfail subs hnodup⟩
    exact List.mem_cons_of_mem _ (List.mem_append_left _
      (deliverAll_fail_remove_event snapshot subs ws hws hfail subs))
  · exact List.mem_cons_of_mem _ (List.mem_append_right _ (by simp))

/-- Witness for C3 at a concrete snapshot and a registry with one failing and
two succeeding subscribers. -/
theorem publisherTick_spec_witness :
    [(⟨0, true⟩ : Subscriber), ⟨1, false⟩, ⟨2, true⟩].Nodup ∧
    PubEvent.sendOk 2 [("j1", 1)] ∈
      (publisherTick [("j1", 1)] [⟨0, true⟩, ⟨1, false⟩, ⟨2, true⟩]).1 ∧
    (⟨1, false⟩ : Subscriber) ∉
      (publisherTick [("j1", 1)] [⟨0, true⟩, ⟨1, false⟩, ⟨2, true⟩]).2 := by
  have hnd : ([(⟨0, true⟩ : Subscriber), ⟨1, false⟩, ⟨2, true⟩]).Nodup := by
    decide
  have h := publisherTick_spec [("j1", 1)] [⟨0, true⟩, ⟨1, false⟩, ⟨2, true⟩] hnd
  exact ⟨hnd, (h.2.2.1 ⟨2, true⟩ (by simp) rfl).1,
    (h.2.2.2.1 ⟨1, false⟩ (by simp) rfl).2⟩

/-- YAML data for one keyframe as pydantic sees it before validation: each
declared field either parses at its declared type or is missing/ill-typed
(`none`). -/
structure RawKeyframe where
  time : Option ℚ
  joints : Option (List (String × ℚ))
deriving DecidableEq, Repr

/-- YAML data for one motion file as pydantic sees it before validation. -/
structure RawMotion where
  name : Option String
  frequency : Option ℚ
  keyframes : Option (List RawKeyframe)
deriving DecidableEq, Repr

/-- Errors `load_motion` can raise: the `HTTPException(404, Motion not found)`
and a pydantic `ValidationError` naming the offending field. -/
inductive LoadErr where
  | notFound
  | validation (field : String)
deriving DecidableEq, Repr

/-- Pydantic validation of `MotionKeyframe`: both declared fields must be
present at their declared types; there are no validators, so any rational
`time` is accepted. -/
def parseKeyframe (r : RawKeyframe) : Except LoadErr MotionKeyframe :=
  match r.time, r.joints with
  | some t, some j => .ok ⟨t, j⟩
  | none, _ => .error (.validation "time")
  | _, none => .error (.validation "joints")

/-- Pydantic validation of a keyframe list, element by element. -/
def parseKeyframes : List RawKeyframe → Except LoadErr (List MotionKeyframe)
  | [] => .ok []
  | r :: rest => do
    let k ← parseKeyframe r
    let ks ← parseKeyframes rest
    .ok (k :: ks)

/-- Pydantic validation of `MotionDefinition` as invoked by
`MotionDefinition(**data)` in `load_motion`: the three declared fields must be
present at their declared types.  The model declares no validators, so no
numeric constraint on `frequency` and no ordering constraint on keyframe
times is checked. -/
def parseMotionDefinition (r : RawMotion) : Except LoadErr MotionDefinition :=
  match r.name, r.frequency, r.keyframes with
  | some n, some f, some kfs => (parseKeyframes kfs).map fun ks => ⟨n, f, ks⟩
  | none, _, _ => .error (.validation "name")
  | _, none, _ => .error (.validation "frequency")
  | _, _, none => .error (.validation "keyframes")

/-- Embeds `load_motion` (main.py lines 212-218) over a store mapping motion
names to the parsed-YAML content of `MOTION_DIR/(name).yaml`, or `none` when
the file does not exist: a missing file raises the 404, an existing one is
validated by the pydantic model. -/
def loadMotion (store : String → Option RawMotion) (name : String) :
    Except LoadErr MotionDefinition :=
  match store name with
  | none => .error .notFound
  | some raw => parseMotionDefinition raw

/-- Calls a motion-playback or command task can make against the simulation:
an `apply_targets` invocation (targets dict and max force), a `step`, and an
`asyncio.sleep`. -/
inductive MEvent where
  | applyCall (targets : List (String × ℚ)) (force : ℚ)
  | stepCall
  | sleepCall (d : ℚ)
deriving DecidableEq, Repr

/-- Result of the `trigger_motion` handler (main.py lines 247-251): the
simulation calls the handler itself performs, the `play_motion` tasks it
creates (motion and scale), and the HTTP response. -/
structure TriggerResult where
  simEvents : List MEvent
  scheduled : List (MotionDefinition × ℚ)
  response : Except LoadErr (List (String × String))

/-- Embeds `trigger_motion`: `load_motion` runs first; when it raises, the
exception propagates before `asyncio.create_task` and before any simulation
call; on success exactly one `play_motion(motion, scale)` task is created. -/
def triggerMotion (store : String → Option RawMotion) (req : MotionRequest) :
    TriggerResult :=
  match loadMotion store req.name with
  | .error e => ⟨[], [], .error e⟩
  | .ok m => ⟨[], [(m, req.scale)], .ok [("status", "playing")]⟩

/-- Result of the `command_joints` handler (main.py lines 200-204): the calls
it makes synchronously before responding, the background tasks it schedules to
run after the response, and the response body. -/
structure CommandResult where
  sync : List MEvent
  background : List MEvent
  response : List (String × String)
deriving DecidableEq, Repr

/-- Embeds `command_joints`: synchronously apply the payload's targets with
its max force, schedule `simulation.step` as a FastAPI background task (run
after the response is sent), and answer `status queued`. -/
def commandJoints (cmd : JointCommand) : CommandResult :=
  { sync := [.applyCall cmd.targets cmd.max_force]
    background := [.stepCall]
    response := [("status", "queued")] }

/-- Embeds one run of the `while idx < len(motion.keyframes)` loop of
`play_motion` (main.py lines 227-236).  The wall clock is external input: the
`clock` list holds the successive values `asyncio.get_running_loop().time()`
returns at the top of each iteration, so a finite `clock` observes a finite
prefix of the run; `restClock` returns the unread readings, so
`clock.length - restClock.length` is the number of iterations (ticks)
executed. -/
structure LoopResult where
  events : List MEvent
  finalIdx : Nat
  restClock : List ℚ

/-- One iteration reads `now`, and if the current keyframe is due
(`elapsed >= frame.time * scale`) applies it with max force 5 and advances
`idx` by one — never more; the iteration then steps the simulation
unconditionally and sleeps `1/frequency`. -/
def playLoop (m : MotionDefinition) (scale start : ℚ) :
    List ℚ → Nat → LoopResult
  | [], idx => ⟨[], idx, []⟩
  | now :: rest, idx =>
    if h : idx < m.keyframes.length then
      let frame := m.keyframes.get ⟨idx, h⟩
      if frame.time * scale ≤ now - start then
        let r := playLoop m scale start rest (idx + 1)
        ⟨.applyCall frame.joints 5 :: .stepCall ::
          .sleepCall (1 / m.frequency) :: r.events, r.finalIdx, r.restClock⟩
      else
        let r := playLoop m scale start rest idx
        ⟨.stepCall :: .sleepCall (1 / m.frequency) :: r.events,
          r.finalIdx, r.restClock⟩
    else ⟨[], idx, now :: rest⟩

/-- Embeds `play_motion` (main.py lines 221-239): an empty keyframe list
returns before anything else; otherwise the loop runs from cursor 0 and a
final sleep pads the run out to `total_time` when time remains.  `finalNow`
is the clock reading taken after the loop for the `remaining` computation. -/
def playMotion (m : MotionDefinition) (scale start : ℚ) (clock : List ℚ)
    (finalNow : ℚ) : List MEvent :=
  match m.keyframes.getLast? with
  | none => []
  | some lastFrame =>
    let totalTime := lastFrame.time * scale
    let r := playLoop m scale start clock 0
    let remaining := totalTime - (finalNow - start)
    r.events ++ (if 0 < remaining then [MEvent.sleepCall remaining] else [])

/-- The `apply_targets` calls of a trace, in order, with their arguments. -/
def applyCalls (evs : List MEvent) : List (List (String × ℚ) × ℚ) :=
  evs.filterMap fun e =>
    match e with
    | .applyCall j f => some (j, f)
    | _ => none

/-- Recognises a `step` call in a trace. -/
def isStepCall : MEvent → Bool
  | .stepCall => true
  | _ => false

/-- Number of `step` calls in a trace. -/
def stepCount (evs : List MEvent) : Nat :=
  evs.countP isStepCall

/-- The duration `play_motion` passes to `asyncio.sleep` each tick:
`1.0 / motion.frequency`.  Python raises `ZeroDivisionError` when the
frequency is zero, modelled as `none`. -/
def tickSleep (m : MotionDefinition) : Option ℚ :=
  if m.frequency = 0 then none else some (1 / m.frequency)

/-- The YAML content whose pydantic validation yields exactly `m`: every
field present at its declared type. -/
def rawOfMotion (m : MotionDefinition) : RawMotion :=
  ⟨some m.name, some m.frequency,
    some (m.keyframes.map fun k => ⟨some k.time, some k.joints⟩)⟩

/-- C4: for every target mapping and max-force value, `apply_targets` issues a
motor command exactly for the names that resolve in the joint map (with the
given force and target), skips every non-resolving name, and is total (no
error) even when known and unknown names are mixed. -/
theorem applyTargets_issues_exactly_resolving (jointMap : List (String × Nat))
    (targets : List (String × ℚ)) (maxForce : ℚ) :
    (applyTargets jointMap targets maxForce).length =
      targets.countP (fun p => (jointMap.lookup p.1).isSome) ∧
    (∀ c ∈ applyTargets jointMap targets maxForce,
      c.force = maxForce ∧
      ∃ p ∈ targets, jointMap.lookup p.1 = some c.jointIndex ∧
        c.targetPosition = p.2) ∧
    (∀ p ∈ targets, ∀ i, jointMap.lookup p.1 = some i →
      (⟨i, p.2, maxForce⟩ : MotorCmd) ∈ applyTargets jointMap targets maxForce) := by
  refine ⟨?_, ?_, ?_⟩
  · induction targets with
    | nil => rfl
    | cons p rest ih =>
      simp only [applyTargets, List.filterMap_cons, List.countP_cons] at *
      cases h : jointMap.lookup p.1 with
      | none => simpa [h] using ih
      | some i => simpa [h] using ih
  · intro c hc
    simp only [applyTargets, List.mem_filterMap, Option.map_eq_some'] at hc
    obtain ⟨p, hp, i, hi, rfl⟩ := hc
    exact ⟨rfl, p, hp, hi, rfl⟩
  · intro p hp i hi
    simp only [applyTargets, List.mem_filterMap]
    exact ⟨p, hp, by simp [hi]⟩

/-- Witness for C4 at a concrete joint map and mixed known/unknown payload. -/
theorem applyTargets_issues_exactly_resolving_witness :
    (⟨0, (1 : ℚ), 5⟩ : MotorCmd) ∈
      applyTargets [("thumb", 0)] [("thumb", 1), ("ghost", 2)] 5 :=
  (applyTargets_issues_exactly_resolving [("thumb", 0)]
      [("thumb", 1), ("ghost", 2)] 5).2.2 ("thumb", 1) (by simp) 0 (by rfl)

/-- C6: in `auto` mode, `render_urdf` returns the xacro-built XML when the
build succeeds, transparently returns the sample file when the xacro source is
present but the build fails and the sample exists, and raises the
`No URDF source available` RuntimeError when neither source exists. -/
theorem renderUrdf_auto_spec (buildOk : Except String String)
    (xml e sampleText : String) :
    (∀ w : UrdfWorld, w.xacroExists = true → w.buildResult = .ok xml →
      renderUrdf w "auto" = .ok xml) ∧
    renderUrdf ⟨true, true, .error e, sampleText⟩ "auto" = .ok sampleText ∧
    renderUrdf ⟨false, false, buildOk, sampleText⟩ "auto" = .error .noSource := by
  refine ⟨?_, rfl, rfl⟩
  intro w hx hb
  simp [renderUrdf, hx, hb]

/-- Witness for C6: a world where the xacro source exists and builds. -/
theorem renderUrdf_auto_spec_witness :
    renderUrdf ⟨true, false, .ok "built", "s"⟩ "auto" = .ok "built" :=
  (renderUrdf_auto_spec (.ok "built") "built" "e" "s").1
    ⟨true, false, .ok "built", "s"⟩ rfl rfl

/-- C2: every call to `ensure_state_publisher` made while a non-done publisher
task exists is a no-op: the state (task, creation count, subscriber list) is
unchanged, so no second task is created, whatever the subscriber list is. -/
theorem ensureStatePublisher_noop_when_running (created : Nat)
    (subs : List Subscriber) :
    ensureStatePublisher ⟨some ⟨false⟩, created, subs⟩ =
      ⟨some ⟨false⟩, created, subs⟩ ∧
    (ensureStatePublisher ⟨some ⟨false⟩, created, subs⟩).created = created := by
  exact ⟨rfl, rfl⟩

/-- C5: a play request for a motion name with no sequence definition on disk
fails with the 404 NotFound before any playback task is scheduled: no task is
created and no simulation call is made. -/
theorem triggerMotion_unknown_name (store : String → Option RawMotion)
    (req : MotionRequest) (h : store req.name = none) :
    (triggerMotion store req).response = .error .notFound ∧
    (triggerMotion store req).scheduled = [] ∧
    (triggerMotion store req).simEvents = [] := by
  simp [triggerMotion, loadMotion, h]

/-- Witness for C5: an empty motion directory and a concrete request. -/
theorem triggerMotion_unknown_name_witness :
    (triggerMotion (fun _ => none) ⟨"wave", 1⟩).response = .error .notFound :=
  (triggerMotion_unknown_name (fun _ => none) ⟨"wave", 1⟩ rfl).1

/-- C7 fails on the code: `load_motion` performs no numeric validation, so it
accepts a motion definition whose frequency is 0 (for which `play_motion`
would divide by zero).  This refutes the claim that every accepted
`MotionDefinition` has frequency strictly greater than 0. -/
theorem loadMotion_accepts_zero_frequency :
    ¬ (∀ (store : String → Option RawMotion) (name : String)
        (m : MotionDefinition),
        loadMotion store name = .ok m → 0 < m.frequency) := by
  intro hclaim
  have h := hclaim (fun _ => some ⟨some "zero", some 0, some []⟩) "zero"
    ⟨"zero", 0, []⟩ rfl
  exact absurd h (by norm_num)

/-- Pydantic validation of fully-typed keyframe data succeeds and returns the
data unchanged. -/
theorem parseKeyframes_rawOfMotion (ks : List MotionKeyframe) :
    parseKeyframes (ks.map fun k => ⟨some k.time, some k.joints⟩) = .ok ks := by
  induction ks with
  | nil => rfl
  | cons k rest ih =>
    simp only [List.map_cons, parseKeyframes, parseKeyframe, ih]
    rfl

/-- Amended C7: `load_motion` applies only shape/type validation — every
well-typed `MotionDefinition`, whatever its frequency (zero, negative) and
whatever its keyframe times (negative, decreasing), is accepted as stored;
and the per-tick sleep duration `1/frequency` computed in `play_motion` is
well-defined exactly when the frequency is nonzero. -/
theorem loadMotion_accepts_any_welltyped (nm : String) (f : ℚ)
    (kfs : List MotionKeyframe) :
    (∃ store : String → Option RawMotion,
      loadMotion store nm = .ok ⟨nm, f, kfs⟩) ∧
    ((tickSleep ⟨nm, f, kfs⟩).isSome ↔ f ≠ 0) := by
  constructor
  · refine ⟨fun _ => some (rawOfMotion ⟨nm, f, kfs⟩), ?_⟩
    simp only [loadMotion, rawOfMotion, parseMotionDefinition,
      parseKeyframes_rawOfMotion]
    rfl
  · by_cases hf : f = 0 <;> simp [tickSleep, hf]

/-- C8: playing a motion with an empty keyframe list completes immediately:
the trace is empty — no `apply_targets` call, no `step` call, not even the
final padding sleep. -/
theorem playMotion_empty_keyframes (nm : String) (f scale start finalNow : ℚ)
    (clock : List ℚ) :
    playMotion ⟨nm, f, []⟩ scale start clock finalNow = [] := rfl

/-- C9: for every joint-command payload, the handler synchronously performs
exactly one `apply_targets` call carrying the payload's targets and max
force, schedules exactly one `step` to run after the response, and performs
no step synchronously (the caller never waits on the step). -/
theorem commandJoints_applies_once_steps_once (cmd : JointCommand) :
    (commandJoints cmd).sync = [MEvent.applyCall cmd.targets cmd.max_force] ∧
    (commandJoints cmd).background = [MEvent.stepCall] ∧
    MEvent.stepCall ∉ (commandJoints cmd).sync := by
  refine ⟨rfl, rfl, ?_⟩
  simp [commandJoints]

/-- Loop invariant of `play_motion`: over any observed prefix of the run, the
`apply_targets` calls are exactly the keyframes from the starting cursor up
to the final cursor, in order, each once, at force 5; each tick performs
exactly one step; the cursor advances at most one keyframe per tick; and the
cursor never moves backwards. -/
theorem playLoop_spec (m : MotionDefinition) (scale start : ℚ)
    (clock : List ℚ) (idx : Nat) :
    applyCalls (playLoop m scale start clock idx).events =
      ((m.keyframes.drop idx).take
        ((playLoop m scale start clock idx).finalIdx - idx)).map
        (fun fr => (fr.joints, (5 : ℚ))) ∧
    stepCount (playLoop m scale start clock idx).events =
      clock.length - (playLoop m scale start clock idx).restClock.length ∧
    (playLoop m scale start clock idx).finalIdx - idx ≤
      clock.length - (playLoop m scale start clock idx).restClock.length ∧
    idx ≤ (playLoop m scale start clock idx).finalIdx ∧
    (playLoop m scale start clock idx).restClock.length ≤ clock.length := by
  induction clock generalizing idx with
  | nil => simp [playLoop, applyCalls, stepCount]
  | cons now rest ih =>
    by_cases h : idx < m.keyframes.length
    · by_cases hdue : m.keyframes[idx].time * scale ≤ now - start
      · obtain ⟨ha, hs, hb, hle, hrest⟩ := ih (idx + 1)
        have hev : (playLoop m scale start (now :: rest) idx).events =
            MEvent.applyCall m.keyframes[idx].joints 5 ::
              MEvent.stepCall :: MEvent.sleepCall (1 / m.frequency) ::
              (playLoop m scale start rest (idx + 1)).events := by
          simp [playLoop, h, hdue]
        have hfin : (playLoop m scale start (now :: rest) idx).finalIdx =
            (playLoop m scale start rest (idx + 1)).finalIdx := by
          simp [playLoop, h, hdue]
        have hrc : (playLoop m scale start (now :: rest) idx).restClock =
            (playLoop m scale start rest (idx + 1)).restClock := by
          simp [playLoop, h, hdue]
        rw [hev, hfin, hrc]
        refine ⟨?_, ?_, ?_, by omega, ?_⟩
        · simp only [applyCalls, List.filterMap_cons] at ha ⊢
          rw [List.drop_eq_getElem_cons h]
          have hsub : (playLoop m scale start rest (idx + 1)).finalIdx - idx =
              ((playLoop m scale start rest (idx + 1)).finalIdx - (idx + 1)) + 1 := by
            omega
          rw [hsub, List.take_succ_cons, List.map_cons]
          exact congrArg _ ha
        · have hcount : stepCount (MEvent.applyCall m.keyframes[idx].joints 5 ::
              MEvent.stepCall :: MEvent.sleepCall (1 / m.frequency) ::
              (playLoop m scale start rest (idx + 1)).events) =
              stepCount (playLoop m scale start rest (idx + 1)).events + 1 := by
            simp [stepCount, List.countP_cons, isStepCall]
          rw [hcount, hs]
          simp only [List.length_cons]
          omega
        · simp only [List.length_cons]
          omega
        · simp only [List.length_cons]
          omega
      · obtain ⟨ha, hs, hb, hle, hrest⟩ := ih idx
        have hev : (playLoop m scale start (now :: rest) idx).events =
            MEvent.stepCall :: MEvent.sleepCall (1 / m.frequency) ::
              (playLoop m scale start rest idx).events := by
          simp [playLoop, h, hdue]
        have hfin : (playLoop m scale start (now :: rest) idx).finalIdx =
            (playLoop m scale start rest idx).finalIdx := by
          simp [playLoop, h, hdue]
        have hrc : (playLoop m scale start (now :: rest) idx).restClock =
            (playLoop m scale start rest idx).restClock := by
          simp [playLoop, h, hdue]
        rw [hev, hfin, hrc]
        refine ⟨?_, ?_, ?_, by omega, ?_⟩
        · simp only [applyCalls, List.filterMap_cons] at ha ⊢
          exact ha
        · have hcount : stepCount (MEvent.stepCall ::
              MEvent.sleepCall (1 / m.frequency) ::
              (playLoop m scale start rest idx).events) =
              stepCount (playLoop m scale start rest idx).events + 1 := by
            simp [stepCount, List.countP_cons, isStepCall]
          rw [hcount, hs]
          simp only [List.length_cons]
          omega
        · simp only [List.length_cons]
          omega
        · simp only [List.length_cons]
          omega
    · simp [playLoop, h, applyCalls, stepCount]

/-- C10: starting from cursor 0, over any observed prefix of a playback run
the applied targets are exactly the keyframes up to the final cursor, in
keyframe order, each applied exactly once (at max force 5); every executed
tick performs exactly one physics step whether or not a keyframe was applied;
and the cursor advances by at most one keyframe per tick, so the number of
applied keyframes never exceeds the number of ticks. -/
theorem playMotion_keyframe_discipline (m : MotionDefinition)
    (scale start : ℚ) (clock : List ℚ) :
    applyCalls (playLoop m scale start clock 0).events =
      ((m.keyframes.take (playLoop m scale start clock 0).finalIdx).map
        (fun fr => (fr.joints, (5 : ℚ)))) ∧
    stepCount (playLoop m scale start clock 0).events =
      clock.length - (playLoop m scale start clock 0).restClock.length ∧
    (playLoop m scale start clock 0).finalIdx ≤
      clock.length - (playLoop m scale start clock 0).restClock.length := by
  have h := playLoop_spec m scale start clock 0
  obtain ⟨ha, hs, hb, _, _⟩ := h
  refine ⟨?_, hs, by omega⟩
  simpa using ha

/-- Witness for C9 at a concrete command payload. -/
theorem commandJoints_applies_once_steps_once_witness :
    (commandJoints ⟨[("thumb", 1)], 5⟩).sync =
      [MEvent.applyCall [("thumb", 1)] 5] ∧
    (commandJoints ⟨[("thumb", 1)], 5⟩).background = [MEvent.stepCall] :=
  ⟨(commandJoints_applies_once_steps_once ⟨[("thumb", 1)], 5⟩).1,
   (commandJoints_applies_once_steps_once ⟨[("thumb", 1)], 5⟩).2.1⟩
